import Mathlib

/-!
Shallow embedding of the ICFP Universal Machine interpreter
(src/um/errors.rs, src/um/instructions.rs, src/um/machine.rs).

Words (Rust `u32`) are modelled as `Nat` with explicit `% 2 ^ 32` at the
points where the Rust code wraps.  The `HashMap<Word, Vec<Word>>` of data
arrays is modelled as an association list with at most one entry per key
(insertion filters out the old binding, mirroring `HashMap::insert`).
The byte channels of stdin/stdout are modelled as explicit `input` and
`output` lists in the machine state.  `execute_instruction` returns the
post state together with an `Except` result, so that the state at the
moment an error is returned is observable (this mirrors the in-place
mutation discipline of the Rust `&mut self` methods).
-/

deriving instance DecidableEq for Except

/-- Mirror of `enum UmError` (errors.rs). -/
inductive UmError where
  | unknownInstruction (inst : Nat)
  | invalidRegisterIndex (idx : Nat)
  | programOutOfRange
  | arrayOutOfRange
  | invalidArrayId
  | divideByZero
  | cannotAbandonProgram
  | invalidOutput (val : Nat)
deriving DecidableEq, Repr

/-- Mirror of `enum Continue` (machine.rs). -/
inductive Continue where
  | yes
  | no
deriving DecidableEq, Repr

/-- Mirror of `enum Instruction` (instructions.rs).  The typed register
wrappers `In<T>`/`Out` carry only a `u8` index at runtime, so the fields
here are plain `Nat` indices; field order follows the Rust struct fields. -/
inductive Instruction where
  | conditionalMove (dest src test : Nat)
  | arrayIndex (dest offset array : Nat)
  | arrayAmend (array offset val : Nat)
  | add (dest x y : Nat)
  | multiply (dest x y : Nat)
  | divide (dest x y : Nat)
  | nand (dest x y : Nat)
  | halt
  | allocate (size result : Nat)
  | abandon (which : Nat)
  | output (val : Nat)
  | input (dest : Nat)
  | loadProgram (from_ finger : Nat)
  | loadRegister (dest : Nat) (val : Nat)
deriving DecidableEq, Repr

/-- Mirror of `Instruction::parse_standard_abc`: the three 3-bit register
fields of a standard-format word. -/
def Instruction.parse_standard_abc (word : Nat) : Nat × Nat × Nat :=
  ((word >>> 6) &&& 7, (word >>> 3) &&& 7, word &&& 7)

/-- Mirror of `Instruction::decode_from` (instructions.rs). -/
def Instruction.decode_from (word : Nat) : Except UmError Instruction :=
  match word >>> 28 with
  | 0 =>
      let abc := Instruction.parse_standard_abc word
      .ok (.conditionalMove abc.1 abc.2.1 abc.2.2)
  | 1 =>
      let abc := Instruction.parse_standard_abc word
      .ok (.arrayIndex abc.1 abc.2.2 abc.2.1)
  | 2 =>
      let abc := Instruction.parse_standard_abc word
      .ok (.arrayAmend abc.1 abc.2.1 abc.2.2)
  | 3 =>
      let abc := Instruction.parse_standard_abc word
      .ok (.add abc.1 abc.2.1 abc.2.2)
  | 4 =>
      let abc := Instruction.parse_standard_abc word
      .ok (.multiply abc.1 abc.2.1 abc.2.2)
  | 5 =>
      let abc := Instruction.parse_standard_abc word
      .ok (.divide abc.1 abc.2.1 abc.2.2)
  | 6 =>
      let abc := Instruction.parse_standard_abc word
      .ok (.nand abc.1 abc.2.1 abc.2.2)
  | 7 => .ok .halt
  | 8 =>
      let abc := Instruction.parse_standard_abc word
      .ok (.allocate abc.2.2 abc.2.1)
  | 9 =>
      let abc := Instruction.parse_standard_abc word
      .ok (.abandon abc.2.2)
  | 10 =>
      let abc := Instruction.parse_standard_abc word
      .ok (.output abc.2.2)
  | 11 =>
      let abc := Instruction.parse_standard_abc word
      .ok (.input abc.2.2)
  | 12 =>
      let abc := Instruction.parse_standard_abc word
      .ok (.loadProgram abc.2.1 abc.2.2)
  | 13 =>
      .ok (.loadRegister ((word >>> 25) &&& 7) (word &&& (2 ^ 25 - 1)))
  | _ => .error (.unknownInstruction word)

/-- Association-list lookup for the data-array table (`HashMap::get`). -/
def lookupA (k : Nat) : List (Nat × List Nat) → Option (List Nat)
  | [] => none
  | p :: rest => if p.1 = k then some p.2 else lookupA k rest

/-- Replacement of the value stored at a present key
(`HashMap::get_mut` followed by an in-place write). -/
def updateA (k : Nat) (v : List Nat) : List (Nat × List Nat) → List (Nat × List Nat)
  | [] => []
  | p :: rest => if p.1 = k then (k, v) :: rest else p :: updateA k v rest

/-- Insertion (`HashMap::insert`): any existing binding of the key is
replaced, so the table keeps at most one entry per key. -/
def insertA (k : Nat) (v : List Nat) (l : List (Nat × List Nat)) : List (Nat × List Nat) :=
  (k, v) :: l.filter (fun p => p.1 != k)

/-- Removal of a key (`HashMap::remove` in the case where the key is
present). -/
def eraseA (k : Nat) (l : List (Nat × List Nat)) : List (Nat × List Nat) :=
  l.filter (fun p => p.1 != k)

/-- The keys of the array table. -/
def keysOf (l : List (Nat × List Nat)) : List Nat := l.map Prod.fst

/-- Mirror of `struct Machine` (machine.rs), extended with the explicit
input and output byte channels that the Rust code reads from stdin and
writes to stdout. -/
structure Machine where
  finger : Nat
  registers : List Nat
  program : List Nat
  data_arrays : List (Nat × List Nat)
  next_array_id : Nat
  input : List Nat
  output : List Nat
deriving DecidableEq, Repr

/-- Mirror of `Machine::load_program_from_bytes`: big-endian packing of
the byte blob into words, the final word zero-padded. -/
def Machine.load_program_from_bytes (program_bytes : List Nat) : List Nat :=
  let num_words :=
    if program_bytes.length % 4 = 0 then program_bytes.length / 4
    else program_bytes.length / 4 + 1
  (List.range num_words).map (fun i =>
    let a := program_bytes.getD (i * 4) 0
    let b := if i * 4 + 1 < program_bytes.length then program_bytes.getD (i * 4 + 1) 0 else 0
    let c := if i * 4 + 2 < program_bytes.length then program_bytes.getD (i * 4 + 2) 0 else 0
    let d := if i * 4 + 3 < program_bytes.length then program_bytes.getD (i * 4 + 3) 0 else 0
    d + c * 2 ^ 8 + b * 2 ^ 16 + a * 2 ^ 24)

/-- Mirror of `Machine::new`, with the pending stdin bytes supplied
explicitly. -/
def Machine.new (program_bytes : List Nat) (input : List Nat) : Machine :=
  { finger := 0
    registers := List.replicate 8 0
    program := Machine.load_program_from_bytes program_bytes
    data_arrays := []
    next_array_id := 1
    input := input
    output := [] }

/-- Mirror of `Machine::fetch_instruction`. -/
def Machine.fetch_instruction (m : Machine) : Option (Nat × Machine) :=
  if m.program.length ≤ m.finger then none
  else some (m.program.getD m.finger 0, { m with finger := m.finger + 1 })

/-- Mirror of `Machine::read_register`. -/
def Machine.read_register (m : Machine) (idx : Nat) : Except UmError Nat :=
  if 8 ≤ idx then .error (.invalidRegisterIndex idx)
  else .ok (m.registers.getD idx 0)

/-- Mirror of `Machine::set_register`; the updated machine is returned in
place of the Rust in-place mutation. -/
def Machine.set_register (m : Machine) (idx val : Nat) : Except UmError Machine :=
  if 8 ≤ idx then .error (.invalidRegisterIndex idx)
  else .ok { m with registers := m.registers.set idx val }

/-- Mirror of `Machine::read_array`. -/
def Machine.read_array (m : Machine) (array_id offset : Nat) : Except UmError Nat :=
  if array_id = 0 then
    if offset < m.program.length then .ok (m.program.getD offset 0)
    else .error .programOutOfRange
  else
    match lookupA array_id m.data_arrays with
    | some arr =>
        if offset < arr.length then .ok (arr.getD offset 0)
        else .error .arrayOutOfRange
    | none => .error .invalidArrayId

/-- Mirror of `Machine::write_array`; mutation happens only on the `.ok`
path, exactly as in the Rust original. -/
def Machine.write_array (m : Machine) (array_id offset val : Nat) : Except UmError Machine :=
  if array_id = 0 then
    if offset < m.program.length then .ok { m with program := m.program.set offset val }
    else .error .programOutOfRange
  else
    match lookupA array_id m.data_arrays with
    | some arr =>
        if offset < arr.length then
          .ok { m with data_arrays := updateA array_id (arr.set offset val) m.data_arrays }
        else .error .arrayOutOfRange
    | none => .error .invalidArrayId

/-- The UTF-8 encoding of a code point below 0x800, as written by the
source's `print!("{}", val as u8 as char)`: code points 0..127 are one
byte, code points 128..255 (the rest of the `u8` range) are the two
bytes `0xC0 ||| (c >>> 6)` and `0x80 ||| (c &&& 0x3F)`. -/
def utf8Bytes (c : Nat) : List Nat :=
  if c < 128 then [c] else [192 + c / 64, 128 + c % 64]

/-- State-passing version of the `?` operator: on an error the machine
state at that point is returned together with the error. -/
def bindE {α : Type} (m : Machine) (r : Except UmError α)
    (f : α → Machine × Except UmError Continue) : Machine × Except UmError Continue :=
  match r with
  | .error e => (m, .error e)
  | .ok a => f a

/-- Mirror of `Machine::execute_instruction`.  The returned machine is
the state after the instruction, including the state at the moment an
error is returned (Rust mutates `&mut self` in place). -/
def Machine.execute_instruction (m : Machine) (inst : Instruction) :
    Machine × Except UmError Continue :=
  match inst with
  | .conditionalMove dest src test =>
      bindE m (m.read_register test) fun test_val =>
        if test_val ≠ 0 then
          bindE m (m.read_register src) fun v =>
            bindE m (m.set_register dest v) fun m1 => (m1, .ok .yes)
        else (m, .ok .yes)
  | .arrayIndex dest offset array =>
      bindE m (m.read_register offset) fun offset_val =>
        bindE m (m.read_register array) fun array_id =>
          bindE m (m.read_array array_id offset_val) fun v =>
            bindE m (m.set_register dest v) fun m1 => (m1, .ok .yes)
  | .arrayAmend array offset val =>
      bindE m (m.read_register offset) fun offset_val =>
        bindE m (m.read_register array) fun array_id =>
          bindE m (m.read_register val) fun val_val =>
            bindE m (m.write_array array_id offset_val val_val) fun m1 => (m1, .ok .yes)
  | .add dest x y =>
      bindE m (m.read_register x) fun x_val =>
        bindE m (m.read_register y) fun y_val =>
          bindE m (m.set_register dest ((x_val + y_val) % 2 ^ 32)) fun m1 => (m1, .ok .yes)
  | .multiply dest x y =>
      bindE m (m.read_register x) fun x_val =>
        bindE m (m.read_register y) fun y_val =>
          bindE m (m.set_register dest ((x_val * y_val) % 2 ^ 32)) fun m1 => (m1, .ok .yes)
  | .divide dest x y =>
      bindE m (m.read_register x) fun x_val =>
        bindE m (m.read_register y) fun y_val =>
          if y_val = 0 then (m, .error .divideByZero)
          else
            bindE m (m.set_register dest (x_val / y_val)) fun m1 => (m1, .ok .yes)
  | .nand dest x y =>
      bindE m (m.read_register x) fun x_val =>
        bindE m (m.read_register y) fun y_val =>
          bindE m (m.set_register dest ((x_val &&& y_val) ^^^ (2 ^ 32 - 1))) fun m1 =>
            (m1, .ok .yes)
  | .halt => (m, .ok .no)
  | .allocate size result =>
      bindE m (m.read_register size) fun size_val =>
        let mIns :=
          { m with data_arrays :=
              insertA m.next_array_id (List.replicate size_val 0) m.data_arrays }
        bindE mIns (mIns.set_register result m.next_array_id) fun m1 =>
          let bumped := (m1.next_array_id + 1) % 2 ^ 32
          ({ m1 with next_array_id := if bumped = 0 then bumped + 1 else bumped }, .ok .yes)
  | .abandon which =>
      bindE m (m.read_register which) fun which_val =>
        if which_val = 0 then (m, .error .cannotAbandonProgram)
        else
          match lookupA which_val m.data_arrays with
          | some _ => ({ m with data_arrays := eraseA which_val m.data_arrays }, .ok .yes)
          | none => (m, .error .invalidArrayId)
  | .output val =>
      bindE m (m.read_register val) fun val_val =>
        if val_val ≤ 255 then
          ({ m with output := m.output ++ utf8Bytes (val_val % 2 ^ 8) }, .ok .yes)
        else (m, .error (.invalidOutput val_val))
  | .input dest =>
      match m.input with
      | b :: rest =>
          let mc := { m with input := rest }
          bindE mc (mc.set_register dest b) fun m1 => (m1, .ok .yes)
      | [] =>
          bindE m (m.set_register dest (2 ^ 32 - 1)) fun m1 => (m1, .ok .yes)
  | .loadProgram from_ finger =>
      bindE m (m.read_register from_) fun array_id =>
        bindE m (m.read_register finger) fun finger_val =>
          if array_id = 0 then ({ m with finger := finger_val }, .ok .yes)
          else
            match lookupA array_id m.data_arrays with
            | some arr => ({ m with program := arr, finger := finger_val }, .ok .yes)
            | none => (m, .error .invalidArrayId)
  | .loadRegister dest val =>
      bindE m (m.set_register dest val) fun m1 => (m1, .ok .yes)

/-- Outcome of one fetch-decode-execute cycle of `Machine::execute`. -/
inductive StepResult where
  | outOfProgram (m : Machine)
  | failed (e : UmError) (m : Machine)
  | running (m : Machine)
  | halted (m : Machine)
deriving DecidableEq, Repr

/-- One iteration of the loop in `Machine::execute`. -/
def Machine.step (m : Machine) : StepResult :=
  match m.fetch_instruction with
  | none => .outOfProgram m
  | some (w, m1) =>
      match Instruction.decode_from w with
      | .error e => .failed e m1
      | .ok inst =>
          match m1.execute_instruction inst with
          | (m2, .error e) => .failed e m2
          | (m2, .ok .yes) => .running m2
          | (m2, .ok .no) => .halted m2

/-- Final outcome of the (fuelled) execution loop. -/
inductive ExecOutcome where
  | ok
  | err (e : UmError)
  | fuelOut
deriving DecidableEq, Repr

/-- Mirror of the loop in `Machine::execute`, with explicit fuel. -/
def Machine.execute : Nat → Machine → ExecOutcome × Machine
  | 0, m => (.fuelOut, m)
  | fuel + 1, m =>
      match m.step with
      | .outOfProgram m1 => (.ok, m1)
      | .halted m1 => (.ok, m1)
      | .failed e m1 => (.err e, m1)
      | .running m1 => Machine.execute fuel m1

/-! ### Helper lemmas about the accessors -/

theorem bindE_ok {α : Type} (m : Machine) (a : α)
    (f : α → Machine × Except UmError Continue) : bindE m (.ok a) f = f a := rfl

theorem bindE_error {α : Type} (m : Machine) (e : UmError)
    (f : α → Machine × Except UmError Continue) : bindE m (.error e) f = (m, .error e) := rfl

theorem read_register_lt (m : Machine) {idx : Nat} (h : idx < 8) :
    m.read_register idx = .ok (m.registers.getD idx 0) := by
  simp [Machine.read_register, Nat.not_le.mpr h]

theorem set_register_lt (m : Machine) {idx : Nat} (h : idx < 8) (val : Nat) :
    m.set_register idx val = .ok { m with registers := m.registers.set idx val } := by
  simp [Machine.set_register, Nat.not_le.mpr h]

/-! ### C1: Output -/

/-- Machine whose register 0 holds 255: the failing input for C1. -/
def C1m : Machine :=
  { finger := 0, registers := [255, 0, 0, 0, 0, 0, 0, 0], program := [],
    data_arrays := [], next_array_id := 1, input := [], output := [] }

/-- Machine whose register 0 holds 65, an ASCII value. -/
def C1ma : Machine :=
  { finger := 0, registers := [65, 0, 0, 0, 0, 0, 0, 0], program := [],
    data_arrays := [], next_array_id := 1, input := [], output := [] }

/-- Machine whose register 0 holds 256, an invalid output value. -/
def C1mb : Machine :=
  { finger := 0, registers := [256, 0, 0, 0, 0, 0, 0, 0], program := [],
    data_arrays := [], next_array_id := 1, input := [], output := [] }

/-- C1 (code bug): the source emits via
`print!("{}", val as u8 as char)`, which writes the char's UTF-8
encoding.  Executing `Output` with `reg[0] = 255` therefore succeeds but
emits the two bytes 0xC3 0xBF instead of the single byte 0xFF the claim
requires; values ≤ 127 do emit a single byte equal to the register
value, and a value > 255 fails with `InvalidOutput` before emitting
anything. -/
theorem C1_output_utf8_bug :
    C1m.execute_instruction (.output 0) = ({ C1m with output := [195, 191] }, .ok .yes)
    ∧ C1ma.execute_instruction (.output 0) = ({ C1ma with output := [65] }, .ok .yes)
    ∧ C1mb.execute_instruction (.output 0) = (C1mb, .error (.invalidOutput 256)) :=
  ⟨rfl, rfl, rfl⟩

/-! ### C4: arithmetic operators -/

/-- C4: for register operands `b`, `c` holding `x`, `y`: `Add` stores
`(x + y) mod 2^32`, `Multiply` stores `(x * y) mod 2^32`, `Nand` stores
the bitwise complement of `x AND y` (on 32 bits, shown bit by bit), and
`Divide` stores the unsigned quotient `x / y` when `y ≠ 0` and fails with
`DivideByZero` (leaving the state unchanged) when `y = 0`. -/
theorem C4_arithmetic (m : Machine) (a b c : Nat) (ha : a < 8) (hb : b < 8) (hc : c < 8) :
    m.execute_instruction (.add a b c) =
      ({ m with registers :=
          m.registers.set a ((m.registers.getD b 0 + m.registers.getD c 0) % 2 ^ 32) },
        .ok .yes)
    ∧ m.execute_instruction (.multiply a b c) =
      ({ m with registers :=
          m.registers.set a ((m.registers.getD b 0 * m.registers.getD c 0) % 2 ^ 32) },
        .ok .yes)
    ∧ m.execute_instruction (.nand a b c) =
      ({ m with registers :=
          m.registers.set a ((m.registers.getD b 0 &&& m.registers.getD c 0) ^^^ (2 ^ 32 - 1)) },
        .ok .yes)
    ∧ (∀ i, i < 32 →
        Nat.testBit ((m.registers.getD b 0 &&& m.registers.getD c 0) ^^^ (2 ^ 32 - 1)) i =
          !(Nat.testBit (m.registers.getD b 0) i && Nat.testBit (m.registers.getD c 0) i))
    ∧ (m.registers.getD c 0 = 0 →
        m.execute_instruction (.divide a b c) = (m, .error .divideByZero))
    ∧ (m.registers.getD c 0 ≠ 0 →
        m.execute_instruction (.divide a b c) =
          ({ m with registers :=
              m.registers.set a (m.registers.getD b 0 / m.registers.getD c 0) },
            .ok .yes)) := by
  refine ⟨?_, ?_, ?_, ?_, ?_, ?_⟩
  · simp [Machine.execute_instruction, read_register_lt m hb, read_register_lt m hc,
      set_register_lt m ha, bindE]
  · simp [Machine.execute_instruction, read_register_lt m hb, read_register_lt m hc,
      set_register_lt m ha, bindE]
  · simp [Machine.execute_instruction, read_register_lt m hb, read_register_lt m hc,
      set_register_lt m ha, bindE]
  · intro i hi
    have hmask : Nat.testBit 4294967295 i = true := by
      have h32 : (4294967295 : ℕ) = 2 ^ 32 - 1 := by norm_num
      rw [h32, Nat.testBit_two_pow_sub_one]
      simpa using hi
    simp [Nat.testBit_xor, Nat.testBit_and, hmask, Bool.xor_true, Bool.not_and]
  · intro h0
    replace h0 : m.registers[c]?.getD 0 = 0 := by simpa using h0
    simp [Machine.execute_instruction, read_register_lt m hb, read_register_lt m hc,
      bindE, h0]
  · intro h0
    replace h0 : ¬m.registers[c]?.getD 0 = 0 := by simpa using h0
    simp [Machine.execute_instruction, read_register_lt m hb, read_register_lt m hc,
      set_register_lt m ha, bindE, h0]

/-- Concrete machine for the C4 witness: register 1 holds `2^32 - 1`,
register 2 holds 2. -/
def C4m : Machine :=
  { finger := 0, registers := [0, 4294967295, 2, 0, 0, 0, 0, 0], program := [],
    data_arrays := [], next_array_id := 1, input := [], output := [] }

/-- Witness for C4: `Add` wraps `(2^32 - 1) + 2` to 1, and division by the
zero in register 3 fails with `DivideByZero`. -/
theorem C4_arithmetic_witness :
    C4m.execute_instruction (.add 0 1 2) =
      ({ C4m with registers :=
          C4m.registers.set 0 ((C4m.registers.getD 1 0 + C4m.registers.getD 2 0) % 2 ^ 32) },
        .ok .yes)
    ∧ (C4m.registers.getD 1 0 + C4m.registers.getD 2 0) % 2 ^ 32 = 1
    ∧ C4m.execute_instruction (.divide 0 1 3) = (C4m, .error .divideByZero) :=
  ⟨(C4_arithmetic C4m 0 1 2 (by decide) (by decide) (by decide)).1, by decide,
    (C4_arithmetic C4m 0 1 3 (by decide) (by decide) (by decide)).2.2.2.2.1 (by decide)⟩

/-! ### C2: LoadProgram -/

/-- C2: for `LoadProgram` with `k = reg[B]` and `f = reg[C]`: if `k = 0`
only the finger is set to `f` (no array is copied or modified); if `k ≠ 0`
and live, the program becomes a value-copy of array `k`'s contents, the
finger becomes `f`, and the array table (hence array `k`) is unchanged;
moreover a write to any heap array never changes the program array, so
subsequent writes to `k` leave the running program unchanged; if `k ≠ 0`
and not live, the machine fails with `InvalidArrayId` and no state
changes. -/
theorem C2_load_program (m : Machine) (b c : Nat) (hb : b < 8) (hc : c < 8) :
    (m.registers.getD b 0 = 0 →
      m.execute_instruction (.loadProgram b c) =
        ({ m with finger := m.registers.getD c 0 }, .ok .yes))
    ∧ (∀ arr, m.registers.getD b 0 ≠ 0 →
        lookupA (m.registers.getD b 0) m.data_arrays = some arr →
        m.execute_instruction (.loadProgram b c) =
          ({ m with program := arr, finger := m.registers.getD c 0 }, .ok .yes))
    ∧ (m.registers.getD b 0 ≠ 0 →
        lookupA (m.registers.getD b 0) m.data_arrays = none →
        m.execute_instruction (.loadProgram b c) = (m, .error .invalidArrayId))
    ∧ (∀ (mm : Machine) (k off v : Nat) (m2 : Machine),
        k ≠ 0 → mm.write_array k off v = .ok m2 → m2.program = mm.program) := by
  refine ⟨?_, ?_, ?_, ?_⟩
  · intro h0
    replace h0 : m.registers[b]?.getD 0 = 0 := by simpa using h0
    simp [Machine.execute_instruction, read_register_lt m hb, read_register_lt m hc,
      bindE, h0]
  · intro arr hne hlk
    replace hne : ¬m.registers[b]?.getD 0 = 0 := by simpa using hne
    replace hlk : lookupA (m.registers[b]?.getD 0) m.data_arrays = some arr := by
      simpa using hlk
    simp [Machine.execute_instruction, read_register_lt m hb, read_register_lt m hc,
      bindE, hne, hlk]
  · intro hne hlk
    replace hne : ¬m.registers[b]?.getD 0 = 0 := by simpa using hne
    replace hlk : lookupA (m.registers[b]?.getD 0) m.data_arrays = none := by
      simpa using hlk
    simp [Machine.execute_instruction, read_register_lt m hb, read_register_lt m hc,
      bindE, hne, hlk]
  · intro mm k off v m2 hk hw
    unfold Machine.write_array at hw
    rw [if_neg hk] at hw
    split at hw
    · split at hw
      · injection hw with h
        subst h
        rfl
      · cases hw
    · cases hw

/-- Concrete machine for the C2 witness: register 1 holds live array id 1,
register 2 holds the target finger 5. -/
def C2m : Machine :=
  { finger := 0, registers := [0, 1, 5, 0, 0, 0, 0, 0], program := [99],
    data_arrays := [(1, [10, 20])], next_array_id := 2, input := [], output := [] }

/-- The machine after `LoadProgram` from array 1 in `C2m`. -/
def C2p : Machine :=
  { finger := 5, registers := [0, 1, 5, 0, 0, 0, 0, 0], program := [10, 20],
    data_arrays := [(1, [10, 20])], next_array_id := 2, input := [], output := [] }

/-- The machine after additionally writing 77 at offset 0 of array 1. -/
def C2w : Machine :=
  { finger := 5, registers := [0, 1, 5, 0, 0, 0, 0, 0], program := [10, 20],
    data_arrays := [(1, [77, 20])], next_array_id := 2, input := [], output := [] }

/-- Witness for C2: loading program from live array 1 copies its contents
and sets the finger; a subsequent write to array 1 succeeds and leaves the
running program array unchanged. -/
theorem C2_load_program_witness :
    C2m.execute_instruction (.loadProgram 1 2) = (C2p, .ok .yes)
    ∧ C2p.write_array 1 0 77 = .ok C2w
    ∧ C2w.program = C2p.program := by
  have hlk : lookupA (C2m.registers.getD 1 0) C2m.data_arrays = some [10, 20] := rfl
  have h1 := (C2_load_program C2m 1 2 (by norm_num) (by norm_num)).2.1 [10, 20]
    (by norm_num [C2m]) hlk
  have hw : C2p.write_array 1 0 77 = .ok C2w := rfl
  have h2 := (C2_load_program C2m 1 2 (by norm_num) (by norm_num)).2.2.2 C2p 1 0 77 C2w
    (by norm_num) hw
  exact ⟨h1, hw, h2⟩

/-! ### C3: loading the program image -/

/-- Big-endian packing of four bytes: the sum form used by the source
equals the shifted-or form used by the specification. -/
theorem pack_or (a b c d : Nat) (ha : a < 256) (hb : b < 256) (hc : c < 256) (hd : d < 256) :
    d + c * 2 ^ 8 + b * 2 ^ 16 + a * 2 ^ 24 = a <<< 24 ||| b <<< 16 ||| c <<< 8 ||| d := by
  have hA : a <<< 24 = 2 ^ 24 * a := by rw [Nat.shiftLeft_eq]; ring
  have hB : b <<< 16 = 2 ^ 16 * b := by rw [Nat.shiftLeft_eq]; ring
  have hC : c <<< 8 = 2 ^ 8 * c := by rw [Nat.shiftLeft_eq]; ring
  have hb' : b ≤ 255 := by omega
  have hc' : c ≤ 255 := by omega
  have hd' : d ≤ 255 := by omega
  have hlt1 : 2 ^ 16 * b < 2 ^ 24 := by
    calc 2 ^ 16 * b ≤ 2 ^ 16 * 255 := Nat.mul_le_mul_left _ hb'
    _ < 2 ^ 24 := by norm_num
  have hlt2 : 2 ^ 8 * c < 2 ^ 16 := by
    calc 2 ^ 8 * c ≤ 2 ^ 8 * 255 := Nat.mul_le_mul_left _ hc'
    _ < 2 ^ 16 := by norm_num
  have hlt3 : d < 2 ^ 8 := by omega
  have s1 : 2 ^ 24 * a ||| 2 ^ 16 * b = 2 ^ 24 * a + 2 ^ 16 * b :=
    (Nat.mul_add_lt_is_or hlt1 a).symm
  have re1 : 2 ^ 24 * a + 2 ^ 16 * b = 2 ^ 16 * (2 ^ 8 * a + b) := by ring
  have s2 : 2 ^ 24 * a + 2 ^ 16 * b ||| 2 ^ 8 * c
      = 2 ^ 24 * a + 2 ^ 16 * b + 2 ^ 8 * c := by
    rw [re1, ← Nat.mul_add_lt_is_or hlt2]
  have re2 : 2 ^ 24 * a + 2 ^ 16 * b + 2 ^ 8 * c
      = 2 ^ 8 * (2 ^ 16 * a + 2 ^ 8 * b + c) := by ring
  have s3 : 2 ^ 24 * a + 2 ^ 16 * b + 2 ^ 8 * c ||| d
      = 2 ^ 24 * a + 2 ^ 16 * b + 2 ^ 8 * c + d := by
    rw [re2, ← Nat.mul_add_lt_is_or hlt3]
  rw [hA, hB, hC, s1, s2, s3]
  ring

/-- C3: the loaded program has `ceil(len(B)/4)` words; word `i` is the
big-endian packing `B[4i] <<< 24 ||| B[4i+1] <<< 16 ||| B[4i+2] <<< 8 |||
B[4i+3]` with missing tail bytes read as 0; the empty blob yields the
empty program. -/
theorem C3_load_program_from_bytes (bytes : List Nat) (hbb : ∀ x ∈ bytes, x < 256) :
    (Machine.load_program_from_bytes bytes).length = (bytes.length + 3) / 4
    ∧ (bytes = [] → Machine.load_program_from_bytes bytes = [])
    ∧ (∀ i, i < (bytes.length + 3) / 4 →
        (Machine.load_program_from_bytes bytes).getD i 0 =
          bytes.getD (4 * i) 0 <<< 24 ||| bytes.getD (4 * i + 1) 0 <<< 16 |||
            bytes.getD (4 * i + 2) 0 <<< 8 ||| bytes.getD (4 * i + 3) 0) := by
  have hnw : (if bytes.length % 4 = 0 then bytes.length / 4 else bytes.length / 4 + 1)
      = (bytes.length + 3) / 4 := by
    by_cases h : bytes.length % 4 = 0 <;> simp [h] <;> omega
  have hbyte : ∀ j, bytes.getD j 0 < 256 := by
    intro j
    by_cases hj : j < bytes.length
    · rw [List.getD_eq_getElem?_getD, List.getElem?_eq_getElem hj]
      exact hbb _ (List.getElem_mem hj)
    · rw [List.getD_eq_getElem?_getD, List.getElem?_eq_none (by omega)]
      norm_num
  have hguard : ∀ j, (if j < bytes.length then bytes.getD j 0 else 0) = bytes.getD j 0 := by
    intro j
    split
    · rfl
    · rw [List.getD_eq_getElem?_getD, List.getElem?_eq_none (by omega)]
      rfl
  refine ⟨?_, ?_, ?_⟩
  · simp [Machine.load_program_from_bytes, hnw]
  · intro h
    subst h
    rfl
  · intro i hi
    have hlen : i < (Machine.load_program_from_bytes bytes).length := by
      simpa [Machine.load_program_from_bytes, hnw] using hi
    rw [List.getD_eq_getElem?_getD, List.getElem?_eq_getElem hlen, Option.getD_some]
    simp only [Machine.load_program_from_bytes, List.getElem_map, List.getElem_range]
    rw [hguard, hguard, hguard]
    rw [show i * 4 = 4 * i by ring]
    exact pack_or _ _ _ _ (hbyte _) (hbyte _) (hbyte _) (hbyte _)

/-- Witness for C3: the 5-byte blob [1,2,3,4,5] loads as two words,
0x01020304 and 0x05000000 (tail zero-padded). -/
theorem C3_load_program_from_bytes_witness :
    (Machine.load_program_from_bytes [1, 2, 3, 4, 5]).length = 2
    ∧ (Machine.load_program_from_bytes [1, 2, 3, 4, 5]).getD 0 0 = 16909060
    ∧ (Machine.load_program_from_bytes [1, 2, 3, 4, 5]).getD 1 0 = 83886080 := by
  have h := C3_load_program_from_bytes [1, 2, 3, 4, 5] (by decide)
  refine ⟨h.1.trans (by norm_num), ?_, ?_⟩
  · rw [h.2.2 0 (by norm_num)]
    decide
  · rw [h.2.2 1 (by norm_num)]
    decide

/-! ### C5: instruction decoding -/

/-- C5: for a 32-bit word `w`, decoding fails (with `UnknownInstruction`)
iff the opcode `w >>> 28` is 14 or 15; every other opcode decodes
successfully with operands `A = (w>>>6)&7`, `B = (w>>>3)&7`, `C = w&7`
placed per operator, except op 13 where `A = (w>>>25)&7` and the
immediate is `w & (2^25 - 1)`. -/
theorem C5_decode (w : Nat) (hw : w < 2 ^ 32) :
    (Instruction.decode_from w = .error (.unknownInstruction w) ↔
      w >>> 28 = 14 ∨ w >>> 28 = 15)
    ∧ (w >>> 28 = 0 → Instruction.decode_from w =
        .ok (.conditionalMove ((w >>> 6) &&& 7) ((w >>> 3) &&& 7) (w &&& 7)))
    ∧ (w >>> 28 = 1 → Instruction.decode_from w =
        .ok (.arrayIndex ((w >>> 6) &&& 7) (w &&& 7) ((w >>> 3) &&& 7)))
    ∧ (w >>> 28 = 2 → Instruction.decode_from w =
        .ok (.arrayAmend ((w >>> 6) &&& 7) ((w >>> 3) &&& 7) (w &&& 7)))
    ∧ (w >>> 28 = 3 → Instruction.decode_from w =
        .ok (.add ((w >>> 6) &&& 7) ((w >>> 3) &&& 7) (w &&& 7)))
    ∧ (w >>> 28 = 4 → Instruction.decode_from w =
        .ok (.multiply ((w >>> 6) &&& 7) ((w >>> 3) &&& 7) (w &&& 7)))
    ∧ (w >>> 28 = 5 → Instruction.decode_from w =
        .ok (.divide ((w >>> 6) &&& 7) ((w >>> 3) &&& 7) (w &&& 7)))
    ∧ (w >>> 28 = 6 → Instruction.decode_from w =
        .ok (.nand ((w >>> 6) &&& 7) ((w >>> 3) &&& 7) (w &&& 7)))
    ∧ (w >>> 28 = 7 → Instruction.decode_from w = .ok .halt)
    ∧ (w >>> 28 = 8 → Instruction.decode_from w =
        .ok (.allocate (w &&& 7) ((w >>> 3) &&& 7)))
    ∧ (w >>> 28 = 9 → Instruction.decode_from w = .ok (.abandon (w &&& 7)))
    ∧ (w >>> 28 = 10 → Instruction.decode_from w = .ok (.output (w &&& 7)))
    ∧ (w >>> 28 = 11 → Instruction.decode_from w = .ok (.input (w &&& 7)))
    ∧ (w >>> 28 = 12 → Instruction.decode_from w =
        .ok (.loadProgram ((w >>> 3) &&& 7) (w &&& 7)))
    ∧ (w >>> 28 = 13 → Instruction.decode_from w =
        .ok (.loadRegister ((w >>> 25) &&& 7) (w &&& (2 ^ 25 - 1)))) := by
  have h16 : w >>> 28 < 16 := by
    rw [Nat.shiftRight_eq_div_pow]
    have hw' : w < 4294967296 := by
      have h2 : (2 : ℕ) ^ 32 = 4294967296 := by norm_num
      rw [h2] at hw
      exact hw
    have h1 : (2 : ℕ) ^ 28 = 268435456 := by norm_num
    rw [h1]
    omega
  have hok : w >>> 28 ≤ 13 → ∃ inst, Instruction.decode_from w = .ok inst := by
    intro h13
    unfold Instruction.decode_from
    set k := w >>> 28 with hk
    interval_cases k <;> exact ⟨_, rfl⟩
  refine ⟨⟨?_, ?_⟩, ?_, ?_, ?_, ?_, ?_, ?_, ?_, ?_, ?_, ?_, ?_, ?_, ?_, ?_⟩
  · intro herr
    by_contra hno
    push_neg at hno
    have h13 : w >>> 28 ≤ 13 := by omega
    obtain ⟨inst, hi⟩ := hok h13
    rw [hi] at herr
    cases herr
  · intro h
    rcases h with h | h <;> (unfold Instruction.decode_from; rw [h])
  all_goals intro h
  all_goals unfold Instruction.decode_from
  all_goals rw [h]
  all_goals rfl

/-- Witness for C5: word 0xE0000000 (opcode 14) fails with
`UnknownInstruction`; word 0xD0000041 (opcode 13) decodes as the
load-immediate of 65 into register 0. -/
theorem C5_decode_witness :
    Instruction.decode_from 3758096384 = .error (.unknownInstruction 3758096384)
    ∧ Instruction.decode_from 3489660993 = .ok (.loadRegister 0 65) := by
  constructor
  · exact (C5_decode 3758096384 (by norm_num)).1.mpr (Or.inl (by decide))
  · have h :=
      (C5_decode 3489660993 (by norm_num)).2.2.2.2.2.2.2.2.2.2.2.2.2.2 (by decide)
    rw [h]
    decide

/-! ### C8: register indices of decoded instructions -/

/-- All register-index fields of an instruction are in range 0..7. -/
def Instruction.regFieldsOk : Instruction → Bool
  | .conditionalMove a b c => decide (a < 8) && decide (b < 8) && decide (c < 8)
  | .arrayIndex a b c => decide (a < 8) && decide (b < 8) && decide (c < 8)
  | .arrayAmend a b c => decide (a < 8) && decide (b < 8) && decide (c < 8)
  | .add a b c => decide (a < 8) && decide (b < 8) && decide (c < 8)
  | .multiply a b c => decide (a < 8) && decide (b < 8) && decide (c < 8)
  | .divide a b c => decide (a < 8) && decide (b < 8) && decide (c < 8)
  | .nand a b c => decide (a < 8) && decide (b < 8) && decide (c < 8)
  | .halt => true
  | .allocate b c => decide (b < 8) && decide (c < 8)
  | .abandon c => decide (c < 8)
  | .output c => decide (c < 8)
  | .input c => decide (c < 8)
  | .loadProgram b c => decide (b < 8) && decide (c < 8)
  | .loadRegister a _ => decide (a < 8)

/-- A 3-bit field is always below 8. -/
theorem and7_lt (x : Nat) : x &&& 7 < 8 :=
  Nat.lt_succ_of_le Nat.and_le_right

/-- Every successfully decoded instruction has all register fields in
0..7. -/
theorem decode_regFieldsOk (w : Nat) (inst : Instruction)
    (h : Instruction.decode_from w = .ok inst) : inst.regFieldsOk = true := by
  unfold Instruction.decode_from at h
  split at h <;> cases h <;>
    simp [Instruction.regFieldsOk, Instruction.parse_standard_abc, and7_lt]

/-- `read_array` never reports a register-index error. -/
theorem read_array_ne_invalidReg (m : Machine) (a o i : Nat) :
    m.read_array a o ≠ .error (.invalidRegisterIndex i) := by
  unfold Machine.read_array
  split
  · split <;> simp
  · split
    · split <;> simp
    · simp

/-- `write_array` never reports a register-index error. -/
theorem write_array_ne_invalidReg (m : Machine) (a o v : Nat) (i : Nat) :
    m.write_array a o v ≠ .error (.invalidRegisterIndex i) := by
  unfold Machine.write_array
  split
  · split <;> simp
  · split
    · split <;> simp
    · simp

/-- Propagation of the no-register-error property through `bindE`. -/
theorem bindE_snd_ne_invalidReg {α : Type} (m : Machine) (r : Except UmError α)
    (f : α → Machine × Except UmError Continue) (i : Nat)
    (hr : ∀ j, r ≠ .error (.invalidRegisterIndex j))
    (hf : ∀ a, (f a).2 ≠ .error (.invalidRegisterIndex i)) :
    (bindE m r f).2 ≠ .error (.invalidRegisterIndex i) := by
  cases r with
  | error e =>
      simp only [bindE]
      intro heq
      injection heq with he
      exact hr i (by rw [he])
  | ok a => exact hf a

/-- In-range register reads never fail. -/
theorem read_register_ne_invalidReg (m : Machine) {idx : Nat} (h : idx < 8) (j : Nat) :
    m.read_register idx ≠ .error (.invalidRegisterIndex j) := by
  rw [read_register_lt m h]
  simp

/-- In-range register writes never fail. -/
theorem set_register_ne_invalidReg (m : Machine) {idx : Nat} (h : idx < 8) (val j : Nat) :
    m.set_register idx val ≠ .error (.invalidRegisterIndex j) := by
  rw [set_register_lt m h]
  simp

/-- Executing any instruction whose register fields are in range never
takes the `InvalidRegisterIndex` branch of the accessors. -/
theorem exec_ne_invalidReg (m : Machine) (inst : Instruction)
    (h : inst.regFieldsOk = true) (i : Nat) :
    (m.execute_instruction inst).2 ≠ .error (.invalidRegisterIndex i) := by
  cases inst <;>
    simp only [Instruction.regFieldsOk, Bool.and_eq_true, decide_eq_true_eq] at h
  case conditionalMove dest src test =>
    obtain ⟨⟨ha, hb⟩, hc⟩ := h
    refine bindE_snd_ne_invalidReg m _ _ i (read_register_ne_invalidReg m hc) ?_
    intro tv
    split
    · refine bindE_snd_ne_invalidReg m _ _ i (read_register_ne_invalidReg m hb) ?_
      intro v
      refine bindE_snd_ne_invalidReg m _ _ i (set_register_ne_invalidReg m ha v) ?_
      intro m1
      simp
    · simp
  case arrayIndex dest offset array =>
    obtain ⟨⟨ha, hb⟩, hc⟩ := h
    refine bindE_snd_ne_invalidReg m _ _ i (read_register_ne_invalidReg m hb) ?_
    intro ov
    refine bindE_snd_ne_invalidReg m _ _ i (read_register_ne_invalidReg m hc) ?_
    intro av
    refine bindE_snd_ne_invalidReg m _ _ i (fun j => read_array_ne_invalidReg m av ov j) ?_
    intro v
    refine bindE_snd_ne_invalidReg m _ _ i (set_register_ne_invalidReg m ha v) ?_
    intro m1
    simp
  case arrayAmend array offset val =>
    obtain ⟨⟨ha, hb⟩, hc⟩ := h
    refine bindE_snd_ne_invalidReg m _ _ i (read_register_ne_invalidReg m hb) ?_
    intro ov
    refine bindE_snd_ne_invalidReg m _ _ i (read_register_ne_invalidReg m ha) ?_
    intro av
    refine bindE_snd_ne_invalidReg m _ _ i (read_register_ne_invalidReg m hc) ?_
    intro vv
    refine bindE_snd_ne_invalidReg m _ _ i (fun j => write_array_ne_invalidReg m av ov vv j) ?_
    intro m1
    simp
  case add dest x y =>
    obtain ⟨⟨ha, hb⟩, hc⟩ := h
    refine bindE_snd_ne_invalidReg m _ _ i (read_register_ne_invalidReg m hb) ?_
    intro xv
    refine bindE_snd_ne_invalidReg m _ _ i (read_register_ne_invalidReg m hc) ?_
    intro yv
    refine bindE_snd_ne_invalidReg m _ _ i (set_register_ne_invalidReg m ha _) ?_
    intro m1
    simp
  case multiply dest x y =>
    obtain ⟨⟨ha, hb⟩, hc⟩ := h
    refine bindE_snd_ne_invalidReg m _ _ i (read_register_ne_invalidReg m hb) ?_
    intro xv
    refine bindE_snd_ne_invalidReg m _ _ i (read_register_ne_invalidReg m hc) ?_
    intro yv
    refine bindE_snd_ne_invalidReg m _ _ i (set_register_ne_invalidReg m ha _) ?_
    intro m1
    simp
  case divide dest x y =>
    obtain ⟨⟨ha, hb⟩, hc⟩ := h
    refine bindE_snd_ne_invalidReg m _ _ i (read_register_ne_invalidReg m hb) ?_
    intro xv
    refine bindE_snd_ne_invalidReg m _ _ i (read_register_ne_invalidReg m hc) ?_
    intro yv
    split
    · simp
    · refine bindE_snd_ne_invalidReg m _ _ i (set_register_ne_invalidReg m ha _) ?_
      intro m1
      simp
  case nand dest x y =>
    obtain ⟨⟨ha, hb⟩, hc⟩ := h
    refine bindE_snd_ne_invalidReg m _ _ i (read_register_ne_invalidReg m hb) ?_
    intro xv
    refine bindE_snd_ne_invalidReg m _ _ i (read_register_ne_invalidReg m hc) ?_
    intro yv
    refine bindE_snd_ne_invalidReg m _ _ i (set_register_ne_invalidReg m ha _) ?_
    intro m1
    simp
  case halt => simp [Machine.execute_instruction]
  case allocate size result =>
    obtain ⟨hb, hc⟩ := h
    refine bindE_snd_ne_invalidReg m _ _ i (read_register_ne_invalidReg m hb) ?_
    intro sv
    refine bindE_snd_ne_invalidReg _ _ _ i (set_register_ne_invalidReg _ hc _) ?_
    intro m1
    simp
  case abandon which =>
    refine bindE_snd_ne_invalidReg m _ _ i (read_register_ne_invalidReg m h) ?_
    intro wv
    split
    · simp
    · split <;> simp
  case output val =>
    refine bindE_snd_ne_invalidReg m _ _ i (read_register_ne_invalidReg m h) ?_
    intro vv
    split <;> simp
  case input dest =>
    simp only [Machine.execute_instruction]
    cases hin : m.input with
    | nil =>
        refine bindE_snd_ne_invalidReg _ _ _ i (set_register_ne_invalidReg _ h _) ?_
        intro m1
        simp
    | cons b rest =>
        refine bindE_snd_ne_invalidReg _ _ _ i (set_register_ne_invalidReg _ h _) ?_
        intro m1
        simp
  case loadProgram from_ finger =>
    obtain ⟨hb, hc⟩ := h
    refine bindE_snd_ne_invalidReg m _ _ i (read_register_ne_invalidReg m hb) ?_
    intro av
    refine bindE_snd_ne_invalidReg m _ _ i (read_register_ne_invalidReg m hc) ?_
    intro fv
    split
    · simp
    · split <;> simp
  case loadRegister dest val =>
    refine bindE_snd_ne_invalidReg m _ _ i (set_register_ne_invalidReg m h _) ?_
    intro m1
    simp

/-- C8: every instruction produced by the decoder has all its register
index fields in 0..7, and consequently executing it can never surface the
accessors' `InvalidRegisterIndex` error. -/
theorem C8_decoded_register_indices (w : Nat) (inst : Instruction)
    (h : Instruction.decode_from w = .ok inst) :
    inst.regFieldsOk = true
    ∧ ∀ (m : Machine) (i : Nat),
        (m.execute_instruction inst).2 ≠ .error (.invalidRegisterIndex i) :=
  ⟨decode_regFieldsOk w inst h,
    fun m i => exec_ne_invalidReg m inst (decode_regFieldsOk w inst h) i⟩

/-- Witness for C8 at the concrete word 0x30000000 (Add with A=B=C=0). -/
theorem C8_decoded_register_indices_witness :
    (Instruction.add 0 0 0).regFieldsOk = true
    ∧ ((Machine.new [] []).execute_instruction (.add 0 0 0)).2 ≠
        .error (.invalidRegisterIndex 0) := by
  have h := C8_decoded_register_indices 805306368 (.add 0 0 0) (by decide)
  exact ⟨h.1, h.2 (Machine.new [] []) 0⟩

/-! ### C6: the fetch-decode-execute cycle -/

/-- C6: in every cycle: if the finger is past the end of the program the
loop terminates normally; otherwise the word at the old finger is fetched
and the finger is incremented before the decoded operator executes; a
decode error or an operator error aborts the loop fatally; `Halt` (the
`Continue.no` result) exits successfully; and `LoadProgram`'s explicit
finger assignment overrides the increment (the resulting finger is
`reg[C]`, whatever the incremented finger was). -/
theorem C6_execution_cycle (m : Machine) :
    (m.program.length ≤ m.finger →
      m.step = .outOfProgram m ∧ ∀ fuel, Machine.execute (fuel + 1) m = (.ok, m))
    ∧ (m.finger < m.program.length →
        m.fetch_instruction =
          some (m.program.getD m.finger 0, { m with finger := m.finger + 1 })
        ∧ (∀ e, Instruction.decode_from (m.program.getD m.finger 0) = .error e →
            m.step = .failed e { m with finger := m.finger + 1 }
            ∧ ∀ fuel, Machine.execute (fuel + 1) m =
                (.err e, { m with finger := m.finger + 1 }))
        ∧ (∀ inst m2 e, Instruction.decode_from (m.program.getD m.finger 0) = .ok inst →
            ({ m with finger := m.finger + 1 } : Machine).execute_instruction inst
              = (m2, .error e) →
            m.step = .failed e m2
            ∧ ∀ fuel, Machine.execute (fuel + 1) m = (.err e, m2))
        ∧ (∀ inst m2, Instruction.decode_from (m.program.getD m.finger 0) = .ok inst →
            ({ m with finger := m.finger + 1 } : Machine).execute_instruction inst
              = (m2, .ok .yes) →
            m.step = .running m2
            ∧ ∀ fuel, Machine.execute (fuel + 1) m = Machine.execute fuel m2)
        ∧ (∀ inst m2, Instruction.decode_from (m.program.getD m.finger 0) = .ok inst →
            ({ m with finger := m.finger + 1 } : Machine).execute_instruction inst
              = (m2, .ok .no) →
            m.step = .halted m2
            ∧ ∀ fuel, Machine.execute (fuel + 1) m = (.ok, m2)))
    ∧ (∀ (m1 : Machine) (b c : Nat), b < 8 → c < 8 →
        ∀ (m2 : Machine) (r : Continue),
          m1.execute_instruction (.loadProgram b c) = (m2, .ok r) →
          m2.finger = m1.registers.getD c 0) := by
  refine ⟨?_, ?_, ?_⟩
  · intro h
    have hfetch : m.fetch_instruction = none := by
      simp only [Machine.fetch_instruction, if_pos h]
    have hstep : m.step = .outOfProgram m := by
      simp only [Machine.step, hfetch]
    exact ⟨hstep, fun fuel => by simp only [Machine.execute, hstep]⟩
  · intro h
    have hfetch : m.fetch_instruction =
        some (m.program.getD m.finger 0, { m with finger := m.finger + 1 }) := by
      simp only [Machine.fetch_instruction, if_neg (Nat.not_le.mpr h)]
    refine ⟨hfetch, ?_, ?_, ?_, ?_⟩
    · intro e hd
      have hstep : m.step = .failed e { m with finger := m.finger + 1 } := by
        simp only [Machine.step, hfetch, hd]
      exact ⟨hstep, fun fuel => by simp only [Machine.execute, hstep]⟩
    · intro inst m2 e hd he
      have hstep : m.step = .failed e m2 := by
        simp only [Machine.step, hfetch, hd, he]
      exact ⟨hstep, fun fuel => by simp only [Machine.execute, hstep]⟩
    · intro inst m2 hd he
      have hstep : m.step = .running m2 := by
        simp only [Machine.step, hfetch, hd, he]
      exact ⟨hstep, fun fuel => by simp only [Machine.execute, hstep]⟩
    · intro inst m2 hd he
      have hstep : m.step = .halted m2 := by
        simp only [Machine.step, hfetch, hd, he]
      exact ⟨hstep, fun fuel => by simp only [Machine.execute, hstep]⟩
  · intro m1 b c hb hc m2 r hex
    revert hex
    simp only [Machine.execute_instruction, read_register_lt m1 hb, read_register_lt m1 hc,
      bindE]
    split
    · intro hex
      injection hex with h1 h2
      rw [← h1]
    · split
      · intro hex
        injection hex with h1 h2
        rw [← h1]
      · intro hex
        injection hex with h1 h2
        cases h2

/-- Concrete machine for the C6 witness: one-word program `Halt`. -/
def C6m : Machine :=
  { finger := 0, registers := List.replicate 8 0, program := [1879048192],
    data_arrays := [], next_array_id := 1, input := [], output := [] }

/-- Witness for C6: on the one-instruction program `Halt` the cycle
fetches at finger 0, increments the finger, and exits successfully. -/
theorem C6_execution_cycle_witness :
    C6m.step = .halted { C6m with finger := 1 }
    ∧ Machine.execute 1 C6m = (.ok, { C6m with finger := 1 }) := by
  have h := ((C6_execution_cycle C6m).2.1 (by decide)).2.2.2.2 .halt
    { C6m with finger := 1 } rfl rfl
  exact ⟨h.1, h.2 0⟩

/-! ### C10: errors leave the state unchanged -/

/-- Register-read rule usable by `simp` for any machine. -/
theorem read_register_lt_any {idx : Nat} (h : idx < 8) (mm : Machine) :
    mm.read_register idx = .ok (mm.registers.getD idx 0) :=
  read_register_lt mm h

/-- Register-write rule usable by `simp` for any machine. -/
theorem set_register_lt_any {idx : Nat} (h : idx < 8) (mm : Machine) (val : Nat) :
    mm.set_register idx val = .ok { mm with registers := mm.registers.set idx val } :=
  set_register_lt mm h val

/-- C10: executing any instruction with in-range register fields, if it
returns an error, leaves the machine state (registers, program array,
array table, allocation counter, channels, finger) exactly as it was. -/
theorem C10_error_frame (m : Machine) (inst : Instruction)
    (h : inst.regFieldsOk = true) :
    ∀ e : UmError, (m.execute_instruction inst).2 = .error e →
      (m.execute_instruction inst).1 = m := by
  cases inst <;>
    simp only [Instruction.regFieldsOk, Bool.and_eq_true, decide_eq_true_eq] at h
  case conditionalMove dest src test =>
    obtain ⟨⟨ha, hb⟩, hc⟩ := h
    intro e
    simp only [Machine.execute_instruction, read_register_lt_any hc, read_register_lt_any hb,
      set_register_lt_any ha, bindE]
    split <;> intro he <;> cases he
  case arrayIndex dest offset array =>
    obtain ⟨⟨ha, hb⟩, hc⟩ := h
    intro e
    simp only [Machine.execute_instruction, read_register_lt_any hb, read_register_lt_any hc,
      set_register_lt_any ha, bindE]
    split
    · intro he
      rfl
    · intro he
      cases he
  case arrayAmend array offset val =>
    obtain ⟨⟨ha, hb⟩, hc⟩ := h
    intro e
    simp only [Machine.execute_instruction, read_register_lt_any hb, read_register_lt_any ha,
      read_register_lt_any hc, bindE]
    split
    · intro he
      rfl
    · intro he
      cases he
  case add dest x y =>
    obtain ⟨⟨ha, hb⟩, hc⟩ := h
    intro e
    simp only [Machine.execute_instruction, read_register_lt_any hb, read_register_lt_any hc,
      set_register_lt_any ha, bindE]
    intro he
    cases he
  case multiply dest x y =>
    obtain ⟨⟨ha, hb⟩, hc⟩ := h
    intro e
    simp only [Machine.execute_instruction, read_register_lt_any hb, read_register_lt_any hc,
      set_register_lt_any ha, bindE]
    intro he
    cases he
  case divide dest x y =>
    obtain ⟨⟨ha, hb⟩, hc⟩ := h
    intro e
    simp only [Machine.execute_instruction, read_register_lt_any hb, read_register_lt_any hc,
      set_register_lt_any ha, bindE]
    split
    · intro he
      rfl
    · intro he
      cases he
  case nand dest x y =>
    obtain ⟨⟨ha, hb⟩, hc⟩ := h
    intro e
    simp only [Machine.execute_instruction, read_register_lt_any hb, read_register_lt_any hc,
      set_register_lt_any ha, bindE]
    intro he
    cases he
  case halt =>
    intro e he
    cases he
  case allocate size result =>
    obtain ⟨hb, hc⟩ := h
    intro e
    simp only [Machine.execute_instruction, read_register_lt_any hb,
      set_register_lt_any hc, bindE]
    intro he
    cases he
  case abandon which =>
    intro e
    simp only [Machine.execute_instruction, read_register_lt_any h, bindE]
    split
    · intro he
      rfl
    · split
      · intro he
        cases he
      · intro he
        rfl
  case output val =>
    intro e
    simp only [Machine.execute_instruction, read_register_lt_any h, bindE]
    split
    · intro he
      cases he
    · intro he
      rfl
  case input dest =>
    intro e
    simp only [Machine.execute_instruction]
    cases hin : m.input with
    | nil =>
        simp only [set_register_lt_any h, bindE]
        intro he
        cases he
    | cons b rest =>
        simp only [set_register_lt_any h, bindE]
        intro he
        cases he
  case loadProgram from_ finger =>
    obtain ⟨hb, hc⟩ := h
    intro e
    simp only [Machine.execute_instruction, read_register_lt_any hb, read_register_lt_any hc,
      bindE]
    split
    · intro he
      cases he
    · split
      · intro he
        cases he
      · intro he
        rfl
  case loadRegister dest val =>
    intro e
    simp only [Machine.execute_instruction, set_register_lt_any h, bindE]
    intro he
    cases he

/-- Witness for C10: dividing by the zero in register 2 fails with
`DivideByZero` and leaves the machine exactly as it was. -/
theorem C10_error_frame_witness :
    ((Machine.new [] []).execute_instruction (.divide 0 1 2)).2 = .error .divideByZero
    ∧ ((Machine.new [] []).execute_instruction (.divide 0 1 2)).1 = Machine.new [] [] := by
  have h2 : ((Machine.new [] []).execute_instruction (.divide 0 1 2)).2 =
      .error .divideByZero := rfl
  exact ⟨h2, C10_error_frame (Machine.new [] []) (.divide 0 1 2) (by decide) .divideByZero h2⟩

/-! ### C9: decode/encode round trip of the operand fields -/

/-- Re-encoding of the A/B/C operand fields kept by an instruction, each
placed at its bit position (A at bits 6..8, B at 3..5, C at 0..2); fields
the instruction does not retain contribute 0. -/
def Instruction.encode_abc : Instruction → Nat
  | .conditionalMove dest src test => dest <<< 6 ||| src <<< 3 ||| test
  | .arrayIndex dest offset array => dest <<< 6 ||| array <<< 3 ||| offset
  | .arrayAmend array offset val => array <<< 6 ||| offset <<< 3 ||| val
  | .add dest x y => dest <<< 6 ||| x <<< 3 ||| y
  | .multiply dest x y => dest <<< 6 ||| x <<< 3 ||| y
  | .divide dest x y => dest <<< 6 ||| x <<< 3 ||| y
  | .nand dest x y => dest <<< 6 ||| x <<< 3 ||| y
  | .halt => 0
  | .allocate size result => result <<< 3 ||| size
  | .abandon which => which
  | .output val => val
  | .input dest => dest
  | .loadProgram from_ finger => from_ <<< 3 ||| finger
  | .loadRegister dest _ => dest <<< 6

/-- Reassembling the three 3-bit fields of a word recovers its low 9
bits. -/
theorem low9_encode (w : Nat) :
    ((w >>> 6) &&& 7) <<< 6 ||| ((w >>> 3) &&& 7) <<< 3 ||| (w &&& 7) = w % 512 := by
  have ha : (w >>> 6) &&& 7 = w / 64 % 8 := by
    rw [Nat.shiftRight_eq_div_pow, show (7 : ℕ) = 2 ^ 3 - 1 by norm_num,
      Nat.and_pow_two_sub_one_eq_mod]
  have hb : (w >>> 3) &&& 7 = w / 8 % 8 := by
    rw [Nat.shiftRight_eq_div_pow, show (7 : ℕ) = 2 ^ 3 - 1 by norm_num,
      Nat.and_pow_two_sub_one_eq_mod]
  have hc : w &&& 7 = w % 8 := by
    rw [show (7 : ℕ) = 2 ^ 3 - 1 by norm_num, Nat.and_pow_two_sub_one_eq_mod]
  rw [ha, hb, hc, Nat.shiftLeft_eq, Nat.shiftLeft_eq]
  have h3 : (2 : ℕ) ^ 3 = 8 := by norm_num
  have h6 : (2 : ℕ) ^ 6 = 64 := by norm_num
  have hm1 : w / 64 % 8 < 8 := Nat.mod_lt _ (by norm_num)
  have hm2 : w / 8 % 8 < 8 := Nat.mod_lt _ (by norm_num)
  have hm3 : w % 8 < 8 := Nat.mod_lt _ (by norm_num)
  have e1 : w / 64 % 8 * 2 ^ 6 ||| w / 8 % 8 * 2 ^ 3 =
      w / 64 % 8 * 2 ^ 6 + w / 8 % 8 * 2 ^ 3 := by
    rw [show w / 64 % 8 * 2 ^ 6 = 2 ^ 6 * (w / 64 % 8) by ring,
      ← Nat.mul_add_lt_is_or (by omega : w / 8 % 8 * 2 ^ 3 < 2 ^ 6)]
  have e2 : w / 64 % 8 * 2 ^ 6 + w / 8 % 8 * 2 ^ 3 ||| w % 8 =
      w / 64 % 8 * 2 ^ 6 + w / 8 % 8 * 2 ^ 3 + w % 8 := by
    rw [show w / 64 % 8 * 2 ^ 6 + w / 8 % 8 * 2 ^ 3
        = 2 ^ 3 * (w / 64 % 8 * 2 ^ 3 + w / 8 % 8) by ring,
      ← Nat.mul_add_lt_is_or (by omega : w % 8 < 2 ^ 3)]
  rw [e1, e2]
  omega

/-- C9 counterexample: the words 0x700001FF and 0x70000000 differ in
their low 9 bits but both decode to `Halt`, an instruction that retains
no operand fields, so re-encoding its A/B/C fields cannot recover the low
9 bits of 0x700001FF. -/
theorem C9_roundtrip_counterexample :
    Instruction.decode_from 1879048703 = .ok .halt
    ∧ Instruction.decode_from 1879048192 = .ok .halt
    ∧ (1879048703 : Nat) % 512 = 511
    ∧ Instruction.encode_abc .halt = 0 :=
  ⟨rfl, rfl, by norm_num, rfl⟩

/-- C9 (amended): for opcodes 0..6 — the operators that retain all three
operand fields — decoding and then re-encoding the A/B/C fields recovers
the original low 9 bits of the word. -/
theorem C9_roundtrip_amended (w : Nat) (hop : w >>> 28 ≤ 6) (inst : Instruction)
    (hd : Instruction.decode_from w = .ok inst) :
    inst.encode_abc = w % 512 := by
  unfold Instruction.decode_from at hd
  split at hd
  all_goals first
    | omega
    | (cases hd
       simp only [Instruction.encode_abc, Instruction.parse_standard_abc]
       exact low9_encode w)
    | cases hd

/-- Witness for the amended C9 at word 83 (op 0, A=1, B=2, C=3). -/
theorem C9_roundtrip_amended_witness :
    (Instruction.conditionalMove 1 2 3).encode_abc = 83 % 512 :=
  C9_roundtrip_amended 83 (by decide) (.conditionalMove 1 2 3) (by decide)

/-! ### C7: array-table invariant and the allocation counter -/

/-- The keys of an updated table are unchanged. -/
theorem keysOf_updateA (k : Nat) (v : List Nat) (l : List (Nat × List Nat)) :
    keysOf (updateA k v l) = keysOf l := by
  induction l with
  | nil => rfl
  | cons p rest ih =>
      simp only [keysOf] at ih ⊢
      by_cases hp : p.1 = k
      · simp [updateA, hp]
      · simp [updateA, hp, ih]

/-- Dropping the entries at one key commutes with taking keys. -/
theorem keysOf_filter_ne (k : Nat) (l : List (Nat × List Nat)) :
    keysOf (l.filter (fun p => p.1 != k)) = (keysOf l).filter (fun a => a != k) := by
  induction l with
  | nil => rfl
  | cons p rest ih =>
      simp only [keysOf] at ih ⊢
      cases hpk : (p.1 != k) <;> simp [List.filter_cons, hpk, ih]

/-- The keys after an insertion: the new key in front, the old keys with
any occurrence of the new key dropped. -/
theorem keysOf_insertA (k : Nat) (v : List Nat) (l : List (Nat × List Nat)) :
    keysOf (insertA k v l) = k :: (keysOf l).filter (fun a => a != k) := by
  show k :: keysOf (l.filter (fun p => p.1 != k)) = _
  rw [keysOf_filter_ne]

/-- Membership in the keys after an insertion. -/
theorem mem_keysOf_insertA (j k : Nat) (v : List Nat) (l : List (Nat × List Nat)) :
    j ∈ keysOf (insertA k v l) ↔ j = k ∨ (j ∈ keysOf l ∧ j ≠ k) := by
  rw [keysOf_insertA]
  simp [List.mem_filter]

/-- The array-table invariant of the claim: no key is 0, the keys are
pairwise distinct, and the allocation counter is never 0. -/
def ArrTableInv (m : Machine) : Prop :=
  0 ∉ keysOf m.data_arrays ∧ (keysOf m.data_arrays).Nodup ∧ m.next_array_id ≠ 0

/-- A machine state is reachable when it arises from a freshly
constructed machine by executing any sequence of decodable
instructions. -/
inductive Reachable : Machine → Prop
  | init (bytes inp : List Nat) : Reachable (Machine.new bytes inp)
  | step (m : Machine) (w : Nat) (inst : Instruction) :
      Reachable m → Instruction.decode_from w = .ok inst →
      Reachable (m.execute_instruction inst).1

/-- The invariant is preserved by in-place array updates. -/
theorem ArrTableInv_mk_updateA (m : Machine) (k : Nat) (v : List Nat)
    (h : ArrTableInv m) :
    ArrTableInv { m with data_arrays := updateA k v m.data_arrays } := by
  obtain ⟨h0, hnd, hnz⟩ := h
  refine ⟨?_, ?_, hnz⟩
  · show 0 ∉ keysOf (updateA k v m.data_arrays)
    rw [keysOf_updateA]
    exact h0
  · show (keysOf (updateA k v m.data_arrays)).Nodup
    rw [keysOf_updateA]
    exact hnd

/-- The invariant is preserved by insertion at a non-zero key. -/
theorem ArrTableInv_insertA_keys (k : Nat) (v : List Nat) (l : List (Nat × List Nat))
    (hk : k ≠ 0) (h0 : 0 ∉ keysOf l) (hnd : (keysOf l).Nodup) :
    0 ∉ keysOf (insertA k v l) ∧ (keysOf (insertA k v l)).Nodup := by
  rw [keysOf_insertA]
  constructor
  · intro hmem
    rcases List.mem_cons.mp hmem with h1 | h1
    · exact hk h1.symm
    · exact h0 (List.mem_of_mem_filter h1)
  · refine List.Nodup.cons ?_ (hnd.filter _)
    intro hmem
    have := List.of_mem_filter hmem
    simp at this

/-- The invariant is preserved by removal of a key. -/
theorem ArrTableInv_eraseA_keys (k : Nat) (l : List (Nat × List Nat))
    (h0 : 0 ∉ keysOf l) (hnd : (keysOf l).Nodup) :
    0 ∉ keysOf (eraseA k l) ∧ (keysOf (eraseA k l)).Nodup := by
  unfold eraseA
  rw [keysOf_filter_ne]
  exact ⟨fun hmem => h0 (List.mem_of_mem_filter hmem), hnd.filter _⟩

/-- The invariant is preserved through `write_array`. -/
theorem write_array_ArrTableInv (m : Machine) (a o v : Nat) (m2 : Machine)
    (hw : m.write_array a o v = .ok m2) (h : ArrTableInv m) : ArrTableInv m2 := by
  unfold Machine.write_array at hw
  split at hw
  · split at hw
    · injection hw with h1
      subst h1
      exact h
    · cases hw
  · split at hw
    · split at hw
      · injection hw with h1
        subst h1
        exact ArrTableInv_mk_updateA m _ _ h
      · cases hw
    · cases hw

/-- Executing any decodable instruction preserves the array-table
invariant. -/
theorem exec_preserves_ArrTableInv (m : Machine) (inst : Instruction)
    (hf : inst.regFieldsOk = true) (h : ArrTableInv m) :
    ArrTableInv (m.execute_instruction inst).1 := by
  cases inst <;>
    simp only [Instruction.regFieldsOk, Bool.and_eq_true, decide_eq_true_eq] at hf
  case conditionalMove dest src test =>
    obtain ⟨⟨ha, hb⟩, hc⟩ := hf
    simp only [Machine.execute_instruction, read_register_lt_any hc, read_register_lt_any hb,
      set_register_lt_any ha, bindE]
    split
    · exact h
    · exact h
  case arrayIndex dest offset array =>
    obtain ⟨⟨ha, hb⟩, hc⟩ := hf
    simp only [Machine.execute_instruction, read_register_lt_any hb, read_register_lt_any hc,
      set_register_lt_any ha, bindE]
    split
    · exact h
    · exact h
  case arrayAmend array offset val =>
    obtain ⟨⟨ha, hb⟩, hc⟩ := hf
    simp only [Machine.execute_instruction, read_register_lt_any hb, read_register_lt_any ha,
      read_register_lt_any hc, bindE]
    cases hw : m.write_array (m.registers.getD array 0) (m.registers.getD offset 0)
        (m.registers.getD val 0) with
    | error e => exact h
    | ok m1 => exact write_array_ArrTableInv m _ _ _ m1 hw h
  case add dest x y =>
    obtain ⟨⟨ha, hb⟩, hc⟩ := hf
    simp only [Machine.execute_instruction, read_register_lt_any hb, read_register_lt_any hc,
      set_register_lt_any ha, bindE]
    exact h
  case multiply dest x y =>
    obtain ⟨⟨ha, hb⟩, hc⟩ := hf
    simp only [Machine.execute_instruction, read_register_lt_any hb, read_register_lt_any hc,
      set_register_lt_any ha, bindE]
    exact h
  case divide dest x y =>
    obtain ⟨⟨ha, hb⟩, hc⟩ := hf
    simp only [Machine.execute_instruction, read_register_lt_any hb, read_register_lt_any hc,
      set_register_lt_any ha, bindE]
    split
    · exact h
    · exact h
  case nand dest x y =>
    obtain ⟨⟨ha, hb⟩, hc⟩ := hf
    simp only [Machine.execute_instruction, read_register_lt_any hb, read_register_lt_any hc,
      set_register_lt_any ha, bindE]
    exact h
  case halt => exact h
  case allocate size result =>
    obtain ⟨hb, hc⟩ := hf
    simp only [Machine.execute_instruction, read_register_lt_any hb,
      set_register_lt_any hc, bindE]
    obtain ⟨h0, hnd, hnz⟩ := h
    obtain ⟨h0', hnd'⟩ :=
      ArrTableInv_insertA_keys m.next_array_id
        (List.replicate (m.registers.getD size 0) 0) m.data_arrays hnz h0 hnd
    refine ⟨h0', hnd', ?_⟩
    show (if (m.next_array_id + 1) % 2 ^ 32 = 0 then (m.next_array_id + 1) % 2 ^ 32 + 1
      else (m.next_array_id + 1) % 2 ^ 32) ≠ 0
    split <;> omega
  case abandon which =>
    simp only [Machine.execute_instruction, read_register_lt_any hf, bindE]
    split
    · exact h
    · split
      · obtain ⟨h0, hnd, hnz⟩ := h
        obtain ⟨h0', hnd'⟩ :=
          ArrTableInv_eraseA_keys (m.registers.getD which 0) m.data_arrays h0 hnd
        exact ⟨h0', hnd', hnz⟩
      · exact h
  case output val =>
    simp only [Machine.execute_instruction, read_register_lt_any hf, bindE]
    split
    · exact h
    · exact h
  case input dest =>
    simp only [Machine.execute_instruction]
    cases hin : m.input with
    | nil =>
        simp only [set_register_lt_any hf, bindE]
        exact h
    | cons b rest =>
        simp only [set_register_lt_any hf, bindE]
        exact h
  case loadProgram from_ finger =>
    obtain ⟨hb, hc⟩ := hf
    simp only [Machine.execute_instruction, read_register_lt_any hb, read_register_lt_any hc,
      bindE]
    split
    · exact h
    · split
      · exact h
      · exact h
  case loadRegister dest val =>
    simp only [Machine.execute_instruction, set_register_lt_any hf, bindE]
    exact h

/-- Every reachable state satisfies the array-table invariant. -/
theorem Reachable_ArrTableInv (m : Machine) (h : Reachable m) : ArrTableInv m := by
  induction h with
  | init bytes inp =>
      refine ⟨?_, ?_, ?_⟩
      · show 0 ∉ keysOf ([] : List (Nat × List Nat))
        simp [keysOf]
      · show (keysOf ([] : List (Nat × List Nat))).Nodup
        simp [keysOf]
      · show (1 : Nat) ≠ 0
        omega
  | step m w inst hr hd ih =>
      exact exec_preserves_ArrTableInv m inst (decode_regFieldsOk w inst hd) ih

/-- `getD` after `set` at the same in-range position. -/
theorem getD_set_self (l : List Nat) (i v : Nat) (h : i < l.length) :
    (l.set i v).getD i 0 = v := by
  rw [List.getD_eq_getElem?_getD, List.getElem?_set_self h, Option.getD_some]

/-- `getD` after `set` at a different position. -/
theorem getD_set_ne (l : List Nat) (i j v : Nat) (h : i ≠ j) :
    (l.set i v).getD j 0 = l.getD j 0 := by
  rw [List.getD_eq_getElem?_getD, List.getElem?_set_ne h, ← List.getD_eq_getElem?_getD]

/-- One `Allocate` step, fully computed: insert a zero-filled array at
`next_array_id`, store that id in the result register, advance the
counter modulo 2^32 skipping 0. -/
theorem allocate_step (m : Machine) (sz res : Nat) (hs : sz < 8) (hr : res < 8) :
    m.execute_instruction (.allocate sz res) =
      ({ m with
          data_arrays := insertA m.next_array_id
            (List.replicate (m.registers.getD sz 0) 0) m.data_arrays,
          registers := m.registers.set res m.next_array_id,
          next_array_id :=
            if (m.next_array_id + 1) % 2 ^ 32 = 0 then (m.next_array_id + 1) % 2 ^ 32 + 1
            else (m.next_array_id + 1) % 2 ^ 32 },
        .ok .yes) := by
  simp only [Machine.execute_instruction, read_register_lt_any hs, set_register_lt_any hr,
    bindE]

/-- The allocation instruction used in the counterexample: size from
register 0, result into register 1 (decoded from word 0x80000008). -/
def allocInst : Instruction := .allocate 0 1

/-- The machine obtained from a fresh empty machine by `n` consecutive
`Allocate` steps. -/
def allocs : Nat → Machine
  | 0 => Machine.new [] []
  | n + 1 => ((allocs n).execute_instruction allocInst).1

/-- Closed form of the first `2^32 - 2` allocation steps: the counter is
`n + 1`, register 0 stays 0, the registers keep length 8, and the live
keys are exactly `1..n`. -/
theorem allocs_spec (n : Nat) (hn : n ≤ 4294967294) :
    (allocs n).next_array_id = n + 1
    ∧ (allocs n).registers.getD 0 0 = 0
    ∧ (allocs n).registers.length = 8
    ∧ (∀ k, k ∈ keysOf (allocs n).data_arrays ↔ 1 ≤ k ∧ k ≤ n) := by
  induction n with
  | zero =>
      refine ⟨rfl, rfl, rfl, ?_⟩
      intro k
      show k ∈ keysOf ([] : List (Nat × List Nat)) ↔ _
      simp [keysOf]
      omega
  | succ n ih =>
      have hn' : n ≤ 4294967294 := by omega
      obtain ⟨hnext, hreg0, hlen, hkeys⟩ := ih hn'
      have hstep : allocs (n + 1) =
          { allocs n with
            data_arrays := insertA (allocs n).next_array_id
              (List.replicate ((allocs n).registers.getD 0 0) 0) (allocs n).data_arrays,
            registers := (allocs n).registers.set 1 (allocs n).next_array_id,
            next_array_id :=
              if ((allocs n).next_array_id + 1) % 2 ^ 32 = 0
              then ((allocs n).next_array_id + 1) % 2 ^ 32 + 1
              else ((allocs n).next_array_id + 1) % 2 ^ 32 } := by
        show ((allocs n).execute_instruction allocInst).1 = _
        unfold allocInst
        rw [allocate_step (allocs n) 0 1 (by norm_num) (by norm_num)]
      have h32 : (2 : ℕ) ^ 32 = 4294967296 := by norm_num
      refine ⟨?_, ?_, ?_, ?_⟩
      · rw [hstep]
        show (if ((allocs n).next_array_id + 1) % 2 ^ 32 = 0
            then ((allocs n).next_array_id + 1) % 2 ^ 32 + 1
            else ((allocs n).next_array_id + 1) % 2 ^ 32) = n + 1 + 1
        rw [hnext]
        have hmod : (n + 1 + 1) % 2 ^ 32 = n + 2 := by
          apply Nat.mod_eq_of_lt
          omega
        rw [hmod]
        rw [if_neg (by omega)]
      · rw [hstep]
        show ((allocs n).registers.set 1 (allocs n).next_array_id).getD 0 0 = 0
        rw [getD_set_ne _ _ _ _ (by omega)]
        exact hreg0
      · rw [hstep]
        show ((allocs n).registers.set 1 (allocs n).next_array_id).length = 8
        rw [List.length_set]
        exact hlen
      · intro k
        rw [hstep]
        show k ∈ keysOf (insertA (allocs n).next_array_id _ (allocs n).data_arrays) ↔ _
        rw [mem_keysOf_insertA, hnext, hkeys k]
        omega

/-- Unfolding equation for `allocs` usable at numeral arguments. -/
theorem allocs_succ (n : Nat) :
    allocs (n + 1) = ((allocs n).execute_instruction allocInst).1 := rfl

/-- Every `allocs` state is reachable (each step executes the decoding of
word 0x80000008). -/
theorem Reachable_allocs (n : Nat) : Reachable (allocs n) := by
  induction n with
  | zero => exact Reachable.init [] []
  | succ n ih => exact Reachable.step (allocs n) 2147483656 allocInst ih (by decide)

/-- Field-level consequences of one `Allocate` step. -/
theorem allocate_fields (m : Machine) (sz res : Nat) (hs : sz < 8) (hr : res < 8) :
    (m.execute_instruction (.allocate sz res)).2 = .ok .yes
    ∧ (m.execute_instruction (.allocate sz res)).1.next_array_id =
        (if (m.next_array_id + 1) % 2 ^ 32 = 0 then (m.next_array_id + 1) % 2 ^ 32 + 1
         else (m.next_array_id + 1) % 2 ^ 32)
    ∧ (m.execute_instruction (.allocate sz res)).1.registers =
        m.registers.set res m.next_array_id
    ∧ (m.execute_instruction (.allocate sz res)).1.data_arrays =
        insertA m.next_array_id (List.replicate (m.registers.getD sz 0) 0) m.data_arrays := by
  rw [allocate_step m sz res hs hr]
  exact ⟨rfl, rfl, rfl, rfl⟩

/-- The state after `2^32 - 1` allocations: the counter has wrapped back
to 1 while array 1 is still live. -/
theorem allocs_last :
    (allocs 4294967295).next_array_id = 1
    ∧ 1 ∈ keysOf (allocs 4294967295).data_arrays
    ∧ (allocs 4294967295).registers.length = 8 := by
  obtain ⟨hnext, hreg0, hlen, hkeys⟩ := allocs_spec 4294967294 (le_refl _)
  have h95 : allocs 4294967295 =
      ((allocs 4294967294).execute_instruction (.allocate 0 1)).1 := by
    have e1 : (4294967295 : Nat) = 4294967294 + 1 := by norm_num
    rw [e1]
    exact allocs_succ 4294967294
  obtain ⟨hok, hnext2, hregs2, hdar2⟩ :=
    allocate_fields (allocs 4294967294) 0 1 (by norm_num) (by norm_num)
  refine ⟨?_, ?_, ?_⟩
  · rw [h95, hnext2, hnext]
    norm_num
  · rw [h95, hdar2, mem_keysOf_insertA, hnext]
    refine Or.inr ⟨(hkeys 1).mpr ⟨le_refl 1, by omega⟩, by omega⟩
  · rw [h95, hregs2, List.length_set]
    exact hlen

/-- C7 counterexample: after `2^32 - 1` allocations (a reachable state)
the counter has wrapped to 1 while array 1 is still live, and the next
`Allocate` succeeds, returning the already-live ID 1 — contradicting the
unconditional claim that every `Allocate` returns an ID that was not
previously a key for a still-live array. -/
theorem C7_allocate_counterexample :
    Reachable (allocs 4294967295)
    ∧ 1 ∈ keysOf (allocs 4294967295).data_arrays
    ∧ ((allocs 4294967295).execute_instruction allocInst).2 = .ok .yes
    ∧ ((allocs 4294967295).execute_instruction allocInst).1.registers.getD 1 0 = 1 := by
  obtain ⟨hnext, hmem, hlen⟩ := allocs_last
  obtain ⟨hok, hnext2, hregs2, hdar2⟩ :=
    allocate_fields (allocs 4294967295) 0 1 (by norm_num) (by norm_num)
  refine ⟨Reachable_allocs 4294967295, hmem, hok, ?_⟩
  rw [show allocInst = Instruction.allocate 0 1 from rfl, hregs2, hnext]
  exact getD_set_self _ 1 1 (by rw [hlen]; omega)

/-- C7 (amended): the array table never contains key 0 and its keys are
pairwise distinct, initially and in every reachable state; every
`Allocate` stores `next_array_id` (a non-zero id under the invariant) in
the result register and advances the counter by the policy
`next_id ← next_id + 1 (mod 2^32)`, bumping 0 to 1; and the returned id
was not previously a key of a still-live array provided the counter has
not wrapped onto a live id (i.e. whenever `next_array_id` is not itself a
live key, which holds until the counter wraps). -/
theorem C7_array_table (mr : Machine) :
    (∀ bytes inp, ArrTableInv (Machine.new bytes inp))
    ∧ (Reachable mr → ArrTableInv mr)
    ∧ (∀ (m : Machine) (sz res : Nat), sz < 8 → res < 8 → m.registers.length = 8 →
        (m.execute_instruction (.allocate sz res)).2 = .ok .yes
        ∧ (m.execute_instruction (.allocate sz res)).1.registers.getD res 0 =
            m.next_array_id
        ∧ (ArrTableInv m → m.next_array_id ≠ 0)
        ∧ (m.execute_instruction (.allocate sz res)).1.next_array_id =
            (if (m.next_array_id + 1) % 2 ^ 32 = 0 then (m.next_array_id + 1) % 2 ^ 32 + 1
             else (m.next_array_id + 1) % 2 ^ 32)
        ∧ (m.next_array_id ∉ keysOf m.data_arrays →
            keysOf (m.execute_instruction (.allocate sz res)).1.data_arrays =
              m.next_array_id :: keysOf m.data_arrays)) := by
  refine ⟨?_, Reachable_ArrTableInv mr, ?_⟩
  · intro bytes inp
    refine ⟨?_, ?_, ?_⟩
    · show 0 ∉ keysOf ([] : List (Nat × List Nat))
      simp [keysOf]
    · show (keysOf ([] : List (Nat × List Nat))).Nodup
      simp [keysOf]
    · show (1 : Nat) ≠ 0
      omega
  · intro m sz res hs hr hlen
    obtain ⟨hok, hnext, hregs, hdar⟩ := allocate_fields m sz res hs hr
    refine ⟨hok, ?_, fun hi => hi.2.2, hnext, ?_⟩
    · rw [hregs]
      exact getD_set_self _ res m.next_array_id (by omega)
    · intro hfresh
      rw [hdar, keysOf_insertA]
      congr 1
      refine List.filter_eq_self.mpr ?_
      intro a ha
      simp only [bne_iff_ne, ne_eq]
      intro heq
      exact hfresh (heq ▸ ha)

/-- Witness for the amended C7: allocating on a fresh machine returns id
1 into register 1, and the table keys become exactly [1]. -/
theorem C7_array_table_witness :
    ((Machine.new [] []).execute_instruction (.allocate 0 1)).2 = .ok .yes
    ∧ ((Machine.new [] []).execute_instruction (.allocate 0 1)).1.registers.getD 1 0 = 1
    ∧ keysOf ((Machine.new [] []).execute_instruction (.allocate 0 1)).1.data_arrays
        = [1] := by
  have h := (C7_array_table (Machine.new [] [])).2.2 (Machine.new [] []) 0 1
    (by norm_num) (by norm_num) rfl
  refine ⟨h.1, h.2.1, ?_⟩
  have h5 := h.2.2.2.2 (by simp [Machine.new, keysOf])
  simpa [Machine.new, keysOf] using h5
